import Mathlib

/-!
# Measurement Capture & Calibration Engine — verification

Shallow embedding of the take-off calculator core (`PDFViewer` component):
the drag-session state machine, the measurement store, the undo/redo history
stacks, the calibration registry and the overlay label derivation, translated
from the source. Screen coordinates, zoom scale and calibration factors are
modelled as rationals; the committed `pixelDistance` (the source's
`Math.sqrt`) is modelled as an exact real square root.
-/

namespace TakeoffCalc

/-- A page-local point: `interface Point { x; y; page }`. -/
structure Point where
  x : ℚ
  y : ℚ
  page : ℕ
deriving Repr, DecidableEq

/-- A committed measurement: `interface Measurement { id; points; pixelDistance }`.
`id` is the `Date.now()` value at commit time; `pixelDistance` holds the
Euclidean distance computed once at commit. -/
structure Measurement where
  id : ℕ
  points : Point × Point
  pixelDistance : ℝ

/-- The calibration registry `drawingCalibrations`: a fixed map from scale
identifier to pixel→meter factor (`"125" ↦ 0.1661`, `"100" ↦ 0.125`,
`"75" ↦ 0.0933`). -/
def drawingCalibrations (scaleId : String) : Option ℚ :=
  if scaleId = "125" then some (1661 / 10000)
  else if scaleId = "100" then some (125 / 1000)
  else if scaleId = "75" then some (933 / 10000)
  else none

/-- `const defaultCalibrationValue = "125"`. -/
def defaultCalibrationValue : String := "125"

/-- The component state of `PDFViewer`: the `useState` cells that the
measurement engine reads and writes. -/
structure SState where
  file : Option String
  numPages : Option ℕ
  scale : ℚ
  scaleFactor : Option ℚ
  measurements : List Measurement
  history : List (List Measurement)
  redoStack : List (List Measurement)
  hoveredId : Option ℕ
  isDragging : Bool
  dragStart : Option Point
  dragEnd : Option Point
  dragPage : Option ℕ

/-- The initial state: default file, zoom `1.25`, calibration factor seeded
from the registry's default entry, empty store and stacks, idle drag. -/
def stInit : SState :=
  { file := some "/Level1 Floor Plan - Hydronic.pdf"
  , numPages := none
  , scale := 5 / 4
  , scaleFactor := drawingCalibrations defaultCalibrationValue
  , measurements := []
  , history := []
  , redoStack := []
  , hoveredId := none
  , isDragging := false
  , dragStart := none
  , dragEnd := none
  , dragPage := none }

/-- A raw pointer event: client coordinates and the bounding box origin of
the page element the event was dispatched on. -/
structure PointerEv where
  clientX : ℚ
  clientY : ℚ
  rectLeft : ℚ
  rectTop : ℚ

/-- `handleMouseDown`: normalizes the pointer to page-local coordinates
(`(clientX - rect.left) / scale`), records the drag start tagged with the
page, clears the drag end, and marks the drag active. No guard. -/
def handleMouseDown (e : PointerEv) (pageNumber : ℕ) (s : SState) : SState :=
  { s with
    dragStart := some { x := (e.clientX - e.rectLeft) / s.scale
                      , y := (e.clientY - e.rectTop) / s.scale
                      , page := pageNumber }
  , dragEnd := none
  , dragPage := some pageNumber
  , isDragging := true }

/-- `handleMouseMove`: when a drag is active (with a start point and a drag
page), records the normalized pointer as the drag end — with `page` taken
from `dragPage`, the page the drag started on; otherwise a no-op. -/
def handleMouseMove (e : PointerEv) (s : SState) : SState :=
  match s.isDragging, s.dragStart, s.dragPage with
  | true, some _, some pg =>
      { s with dragEnd := some { x := (e.clientX - e.rectLeft) / s.scale
                               , y := (e.clientY - e.rectTop) / s.scale
                               , page := pg } }
  | _, _, _ => s

/-- The Euclidean pixel distance computed at commit:
`Math.sqrt(dx ** 2 + dy ** 2)`. -/
noncomputable def pixelDist (p1 p2 : Point) : ℝ :=
  Real.sqrt (((p2.x - p1.x : ℚ) : ℝ) ^ 2 + ((p2.y - p1.y : ℚ) : ℝ) ^ 2)

/-- `handleMouseUp`: if a drag with both endpoints is active, appends a new
measurement (id `Date.now()`, the two points, their Euclidean distance),
pushes the pre-append store onto `history`, clears `redoStack`, and resets
the drag; otherwise only clears `isDragging`. `now` is the `Date.now()`
clock value at the event. -/
noncomputable def handleMouseUp (now : ℕ) (s : SState) : SState :=
  match s.isDragging, s.dragStart, s.dragEnd with
  | true, some p1, some p2 =>
      { s with
        measurements := s.measurements ++
          [{ id := now, points := (p1, p2), pixelDistance := pixelDist p1 p2 }]
      , history := s.history ++ [s.measurements]
      , redoStack := []
      , dragStart := none
      , dragEnd := none
      , dragPage := none
      , isDragging := false }
  | _, _, _ => { s with isDragging := false }

/-- `handleUndo`: no-op on empty history; otherwise takes the last history
snapshot, prepends the current store to `redoStack`, installs the snapshot,
and drops it from `history`. -/
def handleUndo (s : SState) : SState :=
  match s.history.getLast? with
  | none => s
  | some prev =>
      { s with
        redoStack := s.measurements :: s.redoStack
      , measurements := prev
      , history := s.history.dropLast }

/-- `handleRedo`: no-op on empty redo stack; otherwise takes the front redo
snapshot (`redoStack[0]`), installs it, appends the current store to
`history`, and drops the front of `redoStack` (`slice(1)`). -/
def handleRedo (s : SState) : SState :=
  match s.redoStack with
  | [] => s
  | next :: rest =>
      { s with
        measurements := next
      , history := s.history ++ [s.measurements]
      , redoStack := rest }

/-- `onFileChange`: installs the chosen file and resets pages, measurements,
calibration factor, history and redo stack. -/
def onFileChange (nextFile : Option String) (s : SState) : SState :=
  { s with
    file := nextFile
  , numPages := none
  , measurements := []
  , scaleFactor := none
  , history := []
  , redoStack := [] }

/-- `onDocumentLoadSuccess`: records the page count. -/
def onDocumentLoadSuccess (nextNumPages : ℕ) (s : SState) : SState :=
  { s with numPages := some nextNumPages }

/-- Modelled from the spec: the scale-selection collaborator
(`DrawingCallibrationScale`, not under `src/`) resolves the chosen scale
identifier in the Calibration Registry and installs the resulting factor;
an unknown identifier is rejected, leaving the prior factor unchanged. -/
def selectScale (scaleId : String) (s : SState) : SState :=
  match drawingCalibrations scaleId with
  | some v => { s with scaleFactor := some v }
  | none => s

/-- Modelled from the spec: the zoom control (`TakeoffControlMenu`, not under
`src/`) sets the current zoom scale via `setScale`. -/
def setZoom (z : ℚ) (s : SState) : SState :=
  { s with scale := z }

/-- `setHoveredId`, called from the overlay's hover handlers. -/
def setHovered (h : Option ℕ) (s : SState) : SState :=
  { s with hoveredId := h }

/-- The events the component state reacts to. `mouseUp` carries the
`Date.now()` clock reading observed at that event. -/
inductive Ev where
  | mouseDown (e : PointerEv) (pageNumber : ℕ)
  | mouseMove (e : PointerEv)
  | mouseUp (now : ℕ)
  | undo
  | redo
  | fileChange (nextFile : Option String)
  | docLoad (numPages : ℕ)
  | scaleSelect (scaleId : String)
  | zoom (z : ℚ)
  | hover (h : Option ℕ)

/-- One event step. -/
noncomputable def step (s : SState) : Ev → SState
  | .mouseDown e pg => handleMouseDown e pg s
  | .mouseMove e => handleMouseMove e s
  | .mouseUp now => handleMouseUp now s
  | .undo => handleUndo s
  | .redo => handleRedo s
  | .fileChange f => onFileChange f s
  | .docLoad n => onDocumentLoadSuccess n s
  | .scaleSelect id => selectScale id s
  | .zoom z => setZoom z s
  | .hover h => setHovered h s

/-- Running an event trace from the initial state. -/
noncomputable def runTrace (evs : List Ev) : SState :=
  evs.foldl step stInit

/-- JS truthiness applied by `scaleFactor || 1`: `null` and `0` both fall
back to `1`. -/
def jsOrOne : Option ℚ → ℚ
  | none => 1
  | some v => if v = 0 then 1 else v

/-- The numeric display value of a measurement,
`m.pixelDistance * (scaleFactor || 1)` from `renderOverlay`. -/
noncomputable def displayValue (scaleFactor : Option ℚ) (m : Measurement) : ℝ :=
  m.pixelDistance * (jsOrOne scaleFactor : ℝ)

/-- `toFixed(2)`: the displayed number rounded (half away from zero in JS;
half-up here, which agrees on the nonnegative values produced) to a multiple
of `1/100`. -/
noncomputable def toFixed2 (x : ℝ) : ℚ :=
  (round (100 * x) : ℤ) / 100

/-- A rendered overlay label: the 2-decimal value and its unit text. -/
structure Label where
  value : ℚ
  unitText : String

/-- The overlay label `` `${(m.pixelDistance * (scaleFactor || 1)).toFixed(2)} m` ``. -/
noncomputable def overlayLabel (scaleFactor : Option ℚ) (m : Measurement) : Label :=
  { value := toFixed2 (displayValue scaleFactor m), unitText := " m" }

/-- The error taxonomy of the spec's Coordinate Normalizer. -/
inductive NormalizeError where
  | invalidScale
deriving Repr, DecidableEq

/-- Modelled from the spec: the Coordinate Normalizer contract of §4.2 — the
claim under test — which computes `(screen - origin) / zoomScale` and fails
with `InvalidScaleError` when the zoom scale is not strictly positive. The
source's inline normalization in `handleMouseDown`/`handleMouseMove` is
compared against this. -/
def normalizeSpec (screenX screenY originX originY zoomScale : ℚ)
    (pageNumber : ℕ) : Except NormalizeError Point :=
  if 0 < zoomScale then
    .ok { x := (screenX - originX) / zoomScale
        , y := (screenY - originY) / zoomScale
        , page := pageNumber }
  else .error .invalidScale

/-- A concrete pre-commit state used by witnesses: an active drag on page 1
from `(0,0)` to `(3,4)`. -/
def sW : SState :=
  { stInit with
    isDragging := true
  , dragStart := some { x := 0, y := 0, page := 1 }
  , dragEnd := some { x := 3, y := 4, page := 1 }
  , dragPage := some 1 }

/-- **C1.** A commit followed by `undo` restores the measurement store to
its exact pre-commit sequence, and a `redo` right after that undo restores
the full post-commit `(measurements, history, redoStack)` state: undo and
redo are a strict inverse pair around every commit. -/
theorem commit_undo_redo_strict_inverse (s : SState) (now : ℕ) (p1 p2 : Point)
    (hd : s.isDragging = true) (h1 : s.dragStart = some p1)
    (h2 : s.dragEnd = some p2) :
    (handleUndo (handleMouseUp now s)).measurements = s.measurements ∧
    handleRedo (handleUndo (handleMouseUp now s)) = handleMouseUp now s := by
  simp only [handleMouseUp, hd, h1, h2, handleUndo, List.getLast?_concat,
    List.dropLast_concat, handleRedo]
  exact ⟨trivial, trivial⟩

/-- Witness for C1 at the concrete drag state `sW`. -/
theorem commit_undo_redo_strict_inverse_witness :
    (handleUndo (handleMouseUp 7 sW)).measurements = sW.measurements ∧
    handleRedo (handleUndo (handleMouseUp 7 sW)) = handleMouseUp 7 sW :=
  commit_undo_redo_strict_inverse sW 7 _ _ rfl rfl rfl

/-- **C2.** Every successful commit pushes the pre-append snapshot of the
store onto the undo stack and leaves the redo stack empty, whatever the
earlier sequence of undos left there. -/
theorem commit_pushes_pre_append_and_clears_redo (s : SState) (now : ℕ)
    (p1 p2 : Point) (hd : s.isDragging = true) (h1 : s.dragStart = some p1)
    (h2 : s.dragEnd = some p2) :
    (handleMouseUp now s).history = s.history ++ [s.measurements] ∧
    (handleMouseUp now s).redoStack = [] := by
  simp only [handleMouseUp, hd, h1, h2]
  exact ⟨trivial, trivial⟩

/-- Witness for C2 at the concrete drag state `sW`. -/
theorem commit_pushes_pre_append_and_clears_redo_witness :
    (handleMouseUp 7 sW).history = sW.history ++ [sW.measurements] ∧
    (handleMouseUp 7 sW).redoStack = [] :=
  commit_pushes_pre_append_and_clears_redo sW 7 _ _ rfl rfl rfl

/-- **C3.** Ending a drag with both endpoints present appends exactly one
measurement at the end of the store — its `pixelDistance` the Euclidean
distance `√((x₂-x₁)² + (y₂-y₁)²)` computed at commit time — and leaves
every existing measurement untouched. -/
theorem commit_appends_euclidean_measurement (s : SState) (now : ℕ)
    (p1 p2 : Point) (hd : s.isDragging = true) (h1 : s.dragStart = some p1)
    (h2 : s.dragEnd = some p2) :
    (handleMouseUp now s).measurements =
      s.measurements ++
        [{ id := now, points := (p1, p2)
         , pixelDistance :=
             Real.sqrt (((p2.x - p1.x : ℚ) : ℝ) ^ 2 + ((p2.y - p1.y : ℚ) : ℝ) ^ 2) }] := by
  simp only [handleMouseUp, hd, h1, h2, pixelDist]

/-- Witness for C3: committing the drag `(0,0) → (3,4)` on page 1 appends a
single measurement of pixel distance exactly `5`. -/
theorem commit_appends_euclidean_measurement_witness :
    (handleMouseUp 7 sW).measurements =
      [{ id := 7
       , points := ({ x := 0, y := 0, page := 1 }, { x := 3, y := 4, page := 1 })
       , pixelDistance := 5 }] := by
  rw [commit_appends_euclidean_measurement sW 7 _ _ rfl rfl rfl]
  have h5 : Real.sqrt ((3 : ℝ) ^ 2 + (4 : ℝ) ^ 2) = 5 := by
    rw [show ((3 : ℝ) ^ 2 + (4 : ℝ) ^ 2) = 5 ^ 2 by norm_num, Real.sqrt_sq (by norm_num)]
  simp [sW, stInit, h5]

/-- A concrete committed measurement used by witnesses. -/
noncomputable def mW : Measurement :=
  { id := 7
  , points := ({ x := 0, y := 0, page := 1 }, { x := 3, y := 4, page := 1 })
  , pixelDistance := 5 }

/-- **C4.** The displayed distance is `pixelDistance * k` for a set
calibration factor `k` and `pixelDistance` unchanged when uncalibrated; the
overlay label carries the value rounded to an exact multiple of `1/100`
(2 decimal places) and the unit suffix `" m"`. -/
theorem displayDistance_linear_in_calibration (m : Measurement) (k : ℚ)
    (hk : 0 < k) :
    displayValue (some k) m = (k : ℝ) * m.pixelDistance ∧
    displayValue none m = m.pixelDistance ∧
    (∃ n : ℤ, (overlayLabel (some k) m).value = (n : ℚ) / 100) ∧
    (overlayLabel (some k) m).unitText = " m" := by
  refine ⟨?_, ?_, ⟨round (100 * displayValue (some k) m), rfl⟩, rfl⟩
  · simp [displayValue, jsOrOne, hk.ne', mul_comm]
  · simp [displayValue, jsOrOne]

/-- Witness for C4 at the 3-4-5 measurement and the `"100"` registry factor
`0.125`. -/
theorem displayDistance_linear_in_calibration_witness :
    displayValue (some (125 / 1000)) mW = ((125 / 1000 : ℚ) : ℝ) * mW.pixelDistance ∧
    displayValue none mW = mW.pixelDistance ∧
    (∃ n : ℤ, (overlayLabel (some (125 / 1000)) mW).value = (n : ℚ) / 100) ∧
    (overlayLabel (some (125 / 1000)) mW).unitText = " m" :=
  displayDistance_linear_in_calibration mW (125 / 1000) (by norm_num)

/-- **C8.** A document change resets the measurement store, both history
stacks, and the calibration factor, from any state. -/
theorem fileChange_resets_store_history_calibration (s : SState)
    (f : Option String) :
    (onFileChange f s).measurements = [] ∧
    (onFileChange f s).history = [] ∧
    (onFileChange f s).redoStack = [] ∧
    (onFileChange f s).scaleFactor = none :=
  ⟨rfl, rfl, rfl, rfl⟩

/-- **C7 counterexample.** At zoom scale `-1` the source's normalization does
not fail: `handleMouseDown` divides the offset by the non-positive scale,
records the resulting point `(-3, -4)` and starts the drag, while the spec's
Coordinate Normalizer contract demands an `InvalidScaleError` failure. -/
theorem normalizer_accepts_nonpositive_scale :
    (handleMouseDown ⟨3, 4, 0, 0⟩ 1 { stInit with scale := -1 }).isDragging = true ∧
    (handleMouseDown ⟨3, 4, 0, 0⟩ 1 { stInit with scale := -1 }).dragStart =
      some { x := -3, y := -4, page := 1 } ∧
    normalizeSpec 3 4 0 0 (-1) 1 = .error .invalidScale := by
  refine ⟨rfl, ?_, by norm_num [normalizeSpec]⟩
  norm_num [handleMouseDown, stInit]

/-- **C7 amended.** The source performs no zoom-scale validation: for every
state whose zoom scale is non-zero — positive or not — `handleMouseDown`
computes the page-local point as offset divided by the scale, records it,
and starts the drag; no error is signaled. -/
theorem mouseDown_computes_through_nonpositive_scale (s : SState)
    (e : PointerEv) (pg : ℕ) (hs : s.scale ≠ 0) :
    (handleMouseDown e pg s).isDragging = true ∧
    (handleMouseDown e pg s).dragStart =
      some { x := (e.clientX - e.rectLeft) / s.scale
           , y := (e.clientY - e.rectTop) / s.scale
           , page := pg } :=
  ⟨rfl, rfl⟩

/-- Witness for the amended C7 at the concrete negative scale `-1`. -/
theorem mouseDown_computes_through_nonpositive_scale_witness :
    (handleMouseDown ⟨3, 4, 0, 0⟩ 1 { stInit with scale := -1 }).isDragging = true ∧
    (handleMouseDown ⟨3, 4, 0, 0⟩ 1 { stInit with scale := -1 }).dragStart =
      some { x := ((3 : ℚ) - 0) / (-1), y := ((4 : ℚ) - 0) / (-1), page := 1 } :=
  mouseDown_computes_through_nonpositive_scale
    { stInit with scale := -1 } ⟨3, 4, 0, 0⟩ 1 (by norm_num)

/-- **C10 counterexample.** The initial state — before any scale selection —
is not uncalibrated: `scaleFactor` is seeded with the registry's default
`"125"` entry, `0.1661`. -/
theorem initial_state_is_calibrated :
    stInit.scaleFactor = some (1661 / 10000) ∧ stInit.scaleFactor ≠ none := by
  constructor <;> simp [stInit, drawingCalibrations, defaultCalibrationValue]

/-- **C10 amended.** The calibration factor starts at the registry's default
`"125"` entry rather than absent; in every reachable state it is either
absent or a value of the calibration registry, absence arising only after a
document change with no later selection. -/
theorem calibration_absent_or_registry_value (evs : List Ev) :
    (runTrace evs).scaleFactor = none ∨
    ∃ sid v, drawingCalibrations sid = some v ∧
      (runTrace evs).scaleFactor = some v := by
  suffices h : ∀ (l : List Ev) (s : SState),
      (s.scaleFactor = none ∨
        ∃ sid v, drawingCalibrations sid = some v ∧ s.scaleFactor = some v) →
      ((l.foldl step s).scaleFactor = none ∨
        ∃ sid v, drawingCalibrations sid = some v ∧
          (l.foldl step s).scaleFactor = some v) by
    refine h evs stInit (Or.inr ⟨"125", 1661 / 10000, ?_, ?_⟩) <;>
      simp [drawingCalibrations, stInit, defaultCalibrationValue]
  intro l
  induction l with
  | nil => exact fun s h => h
  | cons e rest ih =>
      intro s h
      refine ih (step s e) ?_
      cases e with
      | mouseDown e pg => exact h
      | mouseMove e =>
          have : (handleMouseMove e s).scaleFactor = s.scaleFactor := by
            unfold handleMouseMove; split <;> rfl
          simpa [step, this] using h
      | mouseUp now =>
          have : (handleMouseUp now s).scaleFactor = s.scaleFactor := by
            unfold handleMouseUp; split <;> rfl
          simpa [step, this] using h
      | undo =>
          have : (handleUndo s).scaleFactor = s.scaleFactor := by
            unfold handleUndo; split <;> rfl
          simpa [step, this] using h
      | redo =>
          have : (handleRedo s).scaleFactor = s.scaleFactor := by
            unfold handleRedo; split <;> rfl
          simpa [step, this] using h
      | fileChange f => exact Or.inl rfl
      | docLoad n => exact h
      | scaleSelect sid =>
          simp only [step, selectScale]
          split
          · next v hv => exact Or.inr ⟨sid, v, hv, rfl⟩
          · exact h
      | zoom z => exact h
      | hover hh => exact h

/-- A trace with two commits (ids `1` and `2`) followed by two undos. -/
def evsTwoUndos : List Ev :=
  [.mouseDown ⟨0, 0, 0, 0⟩ 1, .mouseMove ⟨3, 4, 0, 0⟩, .mouseUp 1,
   .mouseDown ⟨0, 0, 0, 0⟩ 1, .mouseMove ⟨5, 12, 0, 0⟩, .mouseUp 2,
   .undo, .undo]

/-- **C6 counterexample.** After two commits and two undos the redo queue
holds, oldest-queued last, `[[1], [1, 2]]`: the first undo queued the
snapshot with ids `[1, 2]`. A redo then installs the snapshot with ids `[1]`
— the newest queued one — not the oldest `[1, 2]`: the first action undone
is the last one redone, not the first. -/
theorem redo_pops_newest_not_oldest :
    ((runTrace evsTwoUndos).redoStack.map fun snap => snap.map Measurement.id) =
      [[1], [1, 2]] ∧
    ((runTrace (evsTwoUndos ++ [.redo])).measurements.map Measurement.id) = [1] ∧
    ([1] : List ℕ) ≠ [1, 2] :=
  ⟨rfl, rfl, by decide⟩

/-- **C6 amended.** Redo pops the most recently queued redo snapshot — LIFO,
not FIFO: undo prepends the current store at the front of the redo queue and
redo pops the front, so a redo immediately reverses the most recent undo
(`handleRedo ∘ handleUndo` is the identity whenever an undo is possible),
and undone actions are replayed in the reverse of the order they were
undone. -/
theorem redo_reverses_most_recent_undo (s : SState) (h : s.history ≠ []) :
    handleRedo (handleUndo s) = s := by
  have hg : s.history.getLast? = some (s.history.getLast h) :=
    List.getLast?_eq_getLast s.history h
  have hd : s.history.dropLast ++ [s.history.getLast h] = s.history :=
    List.dropLast_append_getLast h
  unfold handleUndo handleRedo
  rw [hg]
  cases s with
  | mk f np sc sf ms hist rs hov dr dst den dpg => simp_all

/-- Witness for the amended C6 at a concrete one-measurement state. -/
theorem redo_reverses_most_recent_undo_witness :
    handleRedo (handleUndo { stInit with measurements := [mW], history := [[]] }) =
      { stInit with measurements := [mW], history := [[]] } :=
  redo_reverses_most_recent_undo
    { stInit with measurements := [mW], history := [[]] } (by simp)

/-- `P` holds of the current store and of every snapshot held on the undo
and redo stacks. -/
def AllSnaps (P : List Measurement → Prop) (s : SState) : Prop :=
  P s.measurements ∧ (∀ snap ∈ s.history, P snap) ∧ (∀ snap ∈ s.redoStack, P snap)

theorem allSnaps_handleUndo (P : List Measurement → Prop) (s : SState)
    (h : AllSnaps P s) : AllSnaps P (handleUndo s) := by
  obtain ⟨h1, h2, h3⟩ := h
  unfold handleUndo
  split
  · exact ⟨h1, h2, h3⟩
  · next prev hprev =>
      refine ⟨h2 prev (List.mem_of_mem_getLast? hprev), ?_, ?_⟩
      · exact fun snap hs => h2 snap (List.dropLast_subset _ hs)
      · intro snap hs
        rcases List.mem_cons.mp hs with h | h
        · exact h ▸ h1
        · exact h3 snap h

theorem allSnaps_handleRedo (P : List Measurement → Prop) (s : SState)
    (h : AllSnaps P s) : AllSnaps P (handleRedo s) := by
  obtain ⟨h1, h2, h3⟩ := h
  unfold handleRedo
  split
  · exact ⟨h1, h2, h3⟩
  · next next rest hr =>
      refine ⟨h3 next (hr ▸ List.mem_cons_self next rest), ?_, ?_⟩
      · intro snap hs
        rcases List.mem_append.mp hs with h | h
        · exact h2 snap h
        · exact (List.mem_singleton.mp h) ▸ h1
      · exact fun snap hs => h3 snap (hr ▸ List.mem_cons_of_mem next hs)

theorem allSnaps_handleMouseMove (P : List Measurement → Prop) (e : PointerEv)
    (s : SState) (h : AllSnaps P s) : AllSnaps P (handleMouseMove e s) := by
  obtain ⟨h1, h2, h3⟩ := h
  unfold handleMouseMove
  split
  · exact ⟨h1, h2, h3⟩
  · exact ⟨h1, h2, h3⟩

theorem allSnaps_handleMouseUp (P : List Measurement → Prop) (now : ℕ)
    (s : SState) (h : AllSnaps P s)
    (hnew : ∀ p1 p2, s.isDragging = true → s.dragStart = some p1 →
      s.dragEnd = some p2 →
      P (s.measurements ++
          [{ id := now, points := (p1, p2), pixelDistance := pixelDist p1 p2 }])) :
    AllSnaps P (handleMouseUp now s) := by
  obtain ⟨h1, h2, h3⟩ := h
  unfold handleMouseUp
  split
  · next p1 p2 hD hS hE =>
      refine ⟨hnew p1 p2 hD hS hE, ?_, by simp⟩
      intro snap hs
      rcases List.mem_append.mp hs with h | h
      · exact h2 snap h
      · exact (List.mem_singleton.mp h) ▸ h1
  · exact ⟨h1, h2, h3⟩

theorem allSnaps_onFileChange (P : List Measurement → Prop) (f : Option String)
    (s : SState) (hnil : P []) : AllSnaps P (onFileChange f s) := by
  exact ⟨hnil, by simp [onFileChange], by simp [onFileChange]⟩

theorem allSnaps_selectScale (P : List Measurement → Prop) (sid : String)
    (s : SState) (h : AllSnaps P s) : AllSnaps P (selectScale sid s) := by
  obtain ⟨h1, h2, h3⟩ := h
  unfold selectScale
  split
  · exact ⟨h1, h2, h3⟩
  · exact ⟨h1, h2, h3⟩

/-- Every measurement of a snapshot has both endpoints on one page. -/
def samePageSnap (snap : List Measurement) : Prop :=
  ∀ m ∈ snap, (m.points.1).page = (m.points.2).page

/-- The reachability invariant behind C5: all snapshots are single-page and
the drag state is consistent — any recorded start or end point carries the
page stored in `dragPage`. -/
def PageInv (s : SState) : Prop :=
  AllSnaps samePageSnap s ∧
  (∀ p, s.dragStart = some p → s.dragPage = some p.page) ∧
  (∀ q, s.dragEnd = some q → s.dragPage = some q.page)

theorem pageInv_init : PageInv stInit := by
  refine ⟨⟨?_, ?_, ?_⟩, ?_, ?_⟩ <;> simp [stInit, samePageSnap]

theorem handleUndo_dragFields (s : SState) :
    (handleUndo s).dragStart = s.dragStart ∧
    (handleUndo s).dragEnd = s.dragEnd ∧
    (handleUndo s).dragPage = s.dragPage := by
  unfold handleUndo; split <;> exact ⟨rfl, rfl, rfl⟩

theorem handleRedo_dragFields (s : SState) :
    (handleRedo s).dragStart = s.dragStart ∧
    (handleRedo s).dragEnd = s.dragEnd ∧
    (handleRedo s).dragPage = s.dragPage := by
  unfold handleRedo; split <;> exact ⟨rfl, rfl, rfl⟩

theorem pageInv_step (s : SState) (e : Ev) (h : PageInv s) :
    PageInv (step s e) := by
  obtain ⟨hA, hds, hde⟩ := h
  cases e with
  | mouseDown e pg =>
      refine ⟨hA, ?_, ?_⟩
      · intro p hp
        simp only [step, handleMouseDown] at hp ⊢
        cases Option.some.inj hp
        rfl
      · intro q hq
        simp only [step, handleMouseDown] at hq
        exact absurd hq (by simp)
  | mouseMove ev =>
      simp only [step]
      unfold handleMouseMove
      split
      · next pg hD hS hP =>
          refine ⟨hA, fun p hp => hds p hp, ?_⟩
          intro q hq
          cases Option.some.inj hq
          exact hP
      · exact ⟨hA, hds, hde⟩
  | mouseUp now =>
      simp only [step]
      refine ⟨allSnaps_handleMouseUp _ now s hA ?_, ?_, ?_⟩
      · intro p1 p2 hD hS hE
        intro m hm
        rcases List.mem_append.mp hm with h | h
        · exact hA.1 m h
        · rw [List.mem_singleton.mp h]
          have e1 := hds p1 hS
          have e2 := hde p2 hE
          rw [e1] at e2
          exact Option.some.inj e2
      · unfold handleMouseUp
        split
        · intro p hp; exact Option.noConfusion hp
        · intro p hp; exact hds p hp
      · unfold handleMouseUp
        split
        · intro q hq; exact Option.noConfusion hq
        · intro q hq; exact hde q hq
  | undo =>
      obtain ⟨d1, d2, d3⟩ := handleUndo_dragFields s
      simp only [step]
      refine ⟨allSnaps_handleUndo _ s hA, ?_, ?_⟩
      · intro p hp; rw [d1] at hp; rw [d3]; exact hds p hp
      · intro q hq; rw [d2] at hq; rw [d3]; exact hde q hq
  | redo =>
      obtain ⟨d1, d2, d3⟩ := handleRedo_dragFields s
      simp only [step]
      refine ⟨allSnaps_handleRedo _ s hA, ?_, ?_⟩
      · intro p hp; rw [d1] at hp; rw [d3]; exact hds p hp
      · intro q hq; rw [d2] at hq; rw [d3]; exact hde q hq
  | fileChange f =>
      exact ⟨allSnaps_onFileChange _ f s (by simp [samePageSnap]), hds, hde⟩
  | docLoad n => exact ⟨hA, hds, hde⟩
  | scaleSelect sid =>
      simp only [step]
      refine ⟨allSnaps_selectScale _ sid s hA, ?_, ?_⟩
      · unfold selectScale
        split
        · exact fun p hp => hds p hp
        · exact fun p hp => hds p hp
      · unfold selectScale
        split
        · exact fun q hq => hde q hq
        · exact fun q hq => hde q hq
  | zoom z => exact ⟨hA, hds, hde⟩
  | hover hh => exact ⟨hA, hds, hde⟩

theorem pageInv_run (evs : List Ev) : PageInv (runTrace evs) := by
  suffices h : ∀ (l : List Ev) (s : SState), PageInv s → PageInv (l.foldl step s) from
    h evs stInit pageInv_init
  intro l
  induction l with
  | nil => exact fun s h => h
  | cons e rest ih => exact fun s h => ih (step s e) (pageInv_step s e h)

/-- **C5.** In every reachable state both points of every committed
measurement carry the same page number — cross-page measurements cannot be
constructed — and an active drag records its end point with the page forced
to `dragPage`, the page on which the drag began. -/
theorem committed_measurements_single_page :
    (∀ evs : List Ev, (runTrace evs).measurements.Forall
      fun m => (m.points.1).page = (m.points.2).page) ∧
    (∀ (s : SState) (ev : PointerEv) (pg : ℕ),
      s.isDragging = true → s.dragStart ≠ none → s.dragPage = some pg →
      (handleMouseMove ev s).dragEnd =
        some { x := (ev.clientX - ev.rectLeft) / s.scale
             , y := (ev.clientY - ev.rectTop) / s.scale
             , page := pg }) := by
  constructor
  · intro evs
    rw [List.forall_iff_forall_mem]
    exact fun m hm => (pageInv_run evs).1.1 m hm
  · intro s ev pg hD hS hP
    rcases hS' : s.dragStart with _ | p
    · exact absurd hS' hS
    · unfold handleMouseMove
      rw [hD, hS', hP]

/-- Witness for C5: the one-commit trace and the drag state `sW`. -/
theorem committed_measurements_single_page_witness :
    ((runTrace [.mouseDown ⟨0, 0, 0, 0⟩ 1, .mouseMove ⟨3, 4, 0, 0⟩,
        .mouseUp 7]).measurements.Forall
      fun m => (m.points.1).page = (m.points.2).page) ∧
    (handleMouseMove ⟨3, 4, 0, 0⟩ sW).dragEnd =
      some { x := ((3 : ℚ) - 0) / sW.scale
           , y := ((4 : ℚ) - 0) / sW.scale
           , page := 1 } :=
  ⟨committed_measurements_single_page.1 _,
   committed_measurements_single_page.2 sW ⟨3, 4, 0, 0⟩ 1 rfl
     (by simp [sW, stInit]) rfl⟩

/-- The `Date.now()` readings carried by the `mouseUp` events of a trace. -/
def mouseUpTimes : List Ev → List ℕ
  | [] => []
  | Ev.mouseUp t :: rest => t :: mouseUpTimes rest
  | _ :: rest => mouseUpTimes rest

/-- A snapshot whose measurement ids are pairwise distinct and all drawn
from the id pool `S`. -/
def idsOk (S : List ℕ) (snap : List Measurement) : Prop :=
  (snap.map Measurement.id).Nodup ∧ ∀ i ∈ snap.map Measurement.id, i ∈ S

theorem idsOk_mono (S S' : List ℕ) (snap : List Measurement)
    (hS : ∀ i ∈ S, i ∈ S') (h : idsOk S snap) : idsOk S' snap :=
  ⟨h.1, fun i hi => hS i (h.2 i hi)⟩

theorem idsOk_run (l : List Ev) :
    ∀ (S : List ℕ) (s : SState), AllSnaps (idsOk S) s →
    (mouseUpTimes l).Nodup → (∀ t ∈ mouseUpTimes l, t ∉ S) →
    ∃ S', AllSnaps (idsOk S') (l.foldl step s) := by
  induction l with
  | nil => exact fun S s h _ _ => ⟨S, h⟩
  | cons e rest ih =>
      intro S s h hnd hdis
      rw [List.foldl_cons]
      cases e with
      | mouseUp t =>
          have ht : t ∉ S := hdis t (by simp [mouseUpTimes])
          have hrest : (mouseUpTimes rest).Nodup := by
            have := hnd
            simp only [mouseUpTimes, List.nodup_cons] at this
            exact this.2
          have htrest : t ∉ mouseUpTimes rest := by
            have := hnd
            simp only [mouseUpTimes, List.nodup_cons] at this
            exact this.1
          refine ih (S ++ [t]) (step s (.mouseUp t)) ?_ hrest ?_
          · simp only [step]
            have hmono : ∀ i ∈ S, i ∈ S ++ [t] :=
              fun i hi => List.mem_append_left _ hi
            refine allSnaps_handleMouseUp _ t s
              ⟨idsOk_mono S _ _ hmono h.1,
               fun snap hs => idsOk_mono S _ _ hmono (h.2.1 snap hs),
               fun snap hs => idsOk_mono S _ _ hmono (h.2.2 snap hs)⟩ ?_
            intro p1 p2 hD hS hE
            constructor
            · rw [List.map_append, List.nodup_append]
              refine ⟨h.1.1, by simp, ?_⟩
              intro a ha hb
              simp only [List.map_cons, List.map_nil, List.mem_singleton] at hb
              exact ht (hb ▸ h.1.2 a ha)
            · intro i hi
              rw [List.map_append] at hi
              rcases List.mem_append.mp hi with hI | hI
              · exact List.mem_append_left _ (h.1.2 i hI)
              · simp only [List.map_cons, List.map_nil, List.mem_singleton] at hI
                exact hI ▸ List.mem_append_right _ (by simp)
          · intro u hu
            rw [List.mem_append]
            rintro (hc | hc)
            · exact hdis u (by simp [mouseUpTimes, hu]) hc
            · rw [List.mem_singleton] at hc
              exact htrest (hc ▸ hu)
      | mouseDown e pg => exact ih S _ ⟨h.1, h.2.1, h.2.2⟩ hnd hdis
      | mouseMove e =>
          exact ih S _ (allSnaps_handleMouseMove _ e s h) hnd hdis
      | undo => exact ih S _ (allSnaps_handleUndo _ s h) hnd hdis
      | redo => exact ih S _ (allSnaps_handleRedo _ s h) hnd hdis
      | fileChange f =>
          exact ih S _ (allSnaps_onFileChange _ f s (by simp [idsOk])) hnd hdis
      | docLoad n => exact ih S _ ⟨h.1, h.2.1, h.2.2⟩ hnd hdis
      | scaleSelect sid =>
          exact ih S _ (allSnaps_selectScale _ sid s h) hnd hdis
      | zoom z => exact ih S _ ⟨h.1, h.2.1, h.2.2⟩ hnd hdis
      | hover hh => exact ih S _ ⟨h.1, h.2.1, h.2.2⟩ hnd hdis

/-- The same-millisecond trace: two commits whose `mouseUp` events observe
the same `Date.now()` reading, `1000`. -/
def evsDup : List Ev :=
  [.mouseDown ⟨0, 0, 0, 0⟩ 1, .mouseMove ⟨3, 4, 0, 0⟩, .mouseUp 1000,
   .mouseDown ⟨0, 0, 0, 0⟩ 1, .mouseMove ⟨5, 12, 0, 0⟩, .mouseUp 1000]

/-- **C9 counterexample.** Measurement ids are `Date.now()` readings: two
commits within the same millisecond both receive id `1000`, so the committed
ids are not pairwise distinct. -/
theorem duplicate_ids_same_millisecond :
    ((runTrace evsDup).measurements.map Measurement.id) = [1000, 1000] ∧
    ¬ ((runTrace evsDup).measurements.map Measurement.id).Nodup := by
  refine ⟨rfl, ?_⟩
  rw [show ((runTrace evsDup).measurements.map Measurement.id) = [1000, 1000]
      from rfl]
  decide

/-- **C9 amended.** Committed measurement ids are the `Date.now()` readings
of their commits, so they are pairwise distinct whenever those clock
readings are pairwise distinct (commits in distinct milliseconds) — for any
event trace, not just straight-line commit sequences. -/
theorem measurement_ids_nodup_of_distinct_times (evs : List Ev)
    (h : (mouseUpTimes evs).Nodup) :
    ((runTrace evs).measurements.map Measurement.id).Nodup := by
  obtain ⟨S', hS⟩ := idsOk_run evs [] stInit
    ⟨⟨by simp [stInit], by simp [stInit]⟩, by simp [stInit], by simp [stInit]⟩ h (by simp)
  exact hS.1.1

/-- Witness for the amended C9: the two-commit trace with distinct readings
`1` and `2`. -/
theorem measurement_ids_nodup_of_distinct_times_witness :
    (mouseUpTimes evsTwoUndos).Nodup ∧
    ((runTrace evsTwoUndos).measurements.map Measurement.id).Nodup :=
  ⟨by decide, measurement_ids_nodup_of_distinct_times evsTwoUndos (by decide)⟩

end TakeoffCalc
